import Mathlib

/-!
# Verification of the PUMA PLC gateway core

Shallow embedding of the PLC-gateway core of this repository
(`gateway/gateway.py` and `libs/pymcprotocol/mcprotocolerror.py`):

* the iQ-R directory-listing decoder `_parse_iqr`;
* the end-code classifier `check_mcprotocol_error`;
* the device value reader `_read_plc`;
* the 1811h file search with 1810h enumeration fallback `api_filesearch`;
* the 1827h/1828h/182Ah chunked file read-all loop `api_file_readall`.

Bytes are modelled as `List Nat`, decoded strings as lists of Unicode code
points (`List Nat`).  Components provided by the external transport layer
(`Type3E`, `PlcFileControl`) are modelled as records of response functions;
the side effects visible to the transport are recorded as explicit event
traces.  Python exceptions are modelled with `Option`/`Except`: a `none`
result of the decoder stands for an uncaught `IndexError`.
-/

deriving instance DecidableEq for Except

namespace Puma

/-! ## Byte-level helpers -/

/-- Model of `int.from_bytes(bytes, "little")`. -/
def le (bytes : List Nat) : Nat :=
  bytes.foldr (fun b acc => b + 256 * acc) 0

/-- Model of `int.from_bytes(bytes, "big")`. -/
def be (bytes : List Nat) : Nat :=
  bytes.foldl (fun acc b => 256 * acc + b) 0

/-- Python slice `raw[i : i + len]` (clamped, never raising). -/
def slice (raw : List Nat) (i len : Nat) : List Nat :=
  (raw.drop i).take len

/-- Group a byte list into 16-bit little-endian code units, as
`bytes.decode("utf-16le", ...)` does; a trailing odd byte is dropped
(the `"ignore"` error handler). -/
def utf16leUnits : List Nat → List Nat
  | b0 :: b1 :: rest => (b0 + 256 * b1) :: utf16leUnits rest
  | _ => []

/-- Permissive decoding of UTF-16 code units to code points
(`errors="ignore"`): surrogate pairs are combined, unpaired surrogate
units are dropped instead of failing. -/
def decodeUnits : List Nat → List Nat
  | [] => []
  | [u] =>
    if (0xD800 ≤ u ∧ u ≤ 0xDBFF) ∨ (0xDC00 ≤ u ∧ u ≤ 0xDFFF) then []
    else [u]
  | u :: v :: rest =>
    if 0xD800 ≤ u ∧ u ≤ 0xDBFF then
      if 0xDC00 ≤ v ∧ v ≤ 0xDFFF then
        (0x10000 + (u - 0xD800) * 0x400 + (v - 0xDC00)) :: decodeUnits rest
      else
        decodeUnits (v :: rest)
    else if 0xDC00 ≤ u ∧ u ≤ 0xDFFF then
      decodeUnits (v :: rest)
    else
      u :: decodeUnits (v :: rest)

/-- Model of `str.rstrip("\x00")`: drop trailing NUL code points. -/
def rstripNul (s : List Nat) : List Nat :=
  (s.reverse.dropWhile (· = 0)).reverse

/-- Model of `base, _, ext = name.partition(".")`: split at the first `.` (code
point 46); with no dot the whole string is the base and the extension is
empty. -/
def partitionDot : List Nat → List Nat × List Nat
  | [] => ([], [])
  | c :: rest =>
    if c = 46 then ([], rest)
    else
      let p := partitionDot rest
      (c :: p.1, p.2)

/-! ## The directory-listing decoder (`_parse_iqr`, gateway.py:70-85) -/

/-- One decoded file entry, as the dict
`{"name": base, "ext": ext, "size": size, "attribute": attr}`. -/
structure FileEntry where
  name : List Nat
  ext  : List Nat
  size : Nat
  attr : Nat
deriving DecidableEq, Repr

/-- The `while` loop of `_parse_iqr`, at position `idx` of `raw`.

The loop of the Python source is:

* while `idx + 2 <= len(raw)`: read the 2-byte little-endian field
  `chars`; `0` or `0xFFFF` terminates without emitting an entry;
* decode the next `chars * 2` bytes as the UTF-16LE filename
  (a clamped slice), rstrip NULs;
* `attr = raw[idx]` — this raises `IndexError` when `idx` is past the
  end, modelled by the `none` result;
* skip `1 + 9 + 3 + 4` reserved bytes, read a 4-byte little-endian size
  (again a clamped slice), split the name at the first dot, emit.

`fuel` bounds the number of iterations; each iteration advances `idx` by
at least 23 while the guard requires `idx + 2 ≤ raw.length`, so any fuel
with `raw.length ≤ idx + 23 * fuel + 1` gives the loop's exact result
(`parseLoopF_irrel` below). -/
def parseLoopF : Nat → List Nat → Nat → Option (List FileEntry)
  | 0, raw, idx => if idx + 2 ≤ raw.length then none else some []
  | fuel + 1, raw, idx =>
    if idx + 2 ≤ raw.length then
      let chars := le (slice raw idx 2)
      if chars = 0 ∨ chars = 0xFFFF then some []
      else
        let i1 := idx + 2
        let name := rstripNul (decodeUnits (utf16leUnits (slice raw i1 (chars * 2))))
        let i2 := i1 + chars * 2
        if h2 : i2 < raw.length then
          let attr := raw[i2]
          let i3 := i2 + 17
          let size := le (slice raw i3 4)
          let i4 := i3 + 4
          let p := partitionDot name
          match parseLoopF fuel raw i4 with
          | none => none
          | some rest => some (⟨p.1, p.2, size, attr⟩ :: rest)
        else none
    else some []

/-- Model of `_parse_iqr(raw)`: skip the fixed 4-byte header and run the record
loop.  `raw.length + 1` units of fuel are always sufficient (each
iteration consumes at least 23 bytes). -/
def parse_iqr (raw : List Nat) : Option (List FileEntry) :=
  parseLoopF (raw.length + 1) raw 4

/-! ## The end-code classifier
(`check_mcprotocol_error`, mcprotocolerror.py:48-63) -/

/-- The kinds of the exception classes of `mcprotocolerror.py`:
`FileNotFoundError`, `DriveNotFoundError`, `AccessDeniedError`,
`UnsupportedComandError`, and the base class `MCProtocolError`
(the generic case preserving the raw code). -/
inductive ErrKind where
  | fileNotFound
  | driveNotFound
  | accessDenied
  | unsupportedCommand
  | generic
deriving DecidableEq, Repr

/-- A raised protocol exception, reduced to its kind and the end-code
stored as `self.status` by `MCProtocolError.__init__`. -/
structure ProtocolError where
  kind    : ErrKind
  rawCode : Nat
deriving DecidableEq, Repr

/-- The end-code baked into each exception subclass constructor
(`super().__init__(0xC051)` and so on). -/
def kindCode : ErrKind → Nat
  | .fileNotFound       => 0xC051
  | .driveNotFound      => 0xC052
  | .accessDenied       => 0xC053
  | .unsupportedCommand => 0xC059
  | .generic            => 0

/-- Model of `_error_map.get(status)`: `some none` for the `0x0000 → None` entry,
`some (some k)` for the four mapped exception classes, `none` for a key
absent from the dict. -/
def error_map (status : Nat) : Option (Option ErrKind) :=
  if status = 0x0000 then some none
  else if status = 0xC051 then some (some .fileNotFound)
  else if status = 0xC052 then some (some .driveNotFound)
  else if status = 0xC053 then some (some .accessDenied)
  else if status = 0xC059 then some (some .unsupportedCommand)
  else none

/-- Model of `check_mcprotocol_error(status)`: `none` = the function returns
normally (success), `some e` = it raises the exception `e`. -/
def check_mcprotocol_error (status : Nat) : Option ProtocolError :=
  let exc := error_map status
  if status = 0 then none
  else
    match exc with
    | none => some ⟨.generic, status⟩
    | some none => some ⟨.generic, status⟩
    | some (some k) => some ⟨k, kindCode k⟩

/-! ## End-code string extraction in `api_filesearch`
(gateway.py:154-167)

The handler recovers the end-code of a raised `MCProtocolError` as a
string: `getattr(ex, "errorcode", None)` is always `None` (the class
stores `status`/`code`), so the code falls back to a regex over
`ex.args[0]`, which is the message `f"mc protocol error: error code
0x{code:04X}"` built by `MCProtocolError.__init__`.  The regex
`0x[0-9A-Fa-f]+` extracts exactly the token `0x` followed by the
uppercase hex digits of the status, zero-padded to at least 4 digits.
The fallback condition is then `ec.upper() == "0XC061"`. -/

/-- One hex digit as `format(d, "X")` produces it (uppercase). -/
def hexChar (d : Nat) : Char :=
  if d < 10 then Char.ofNat (48 + d) else Char.ofNat (55 + d)

/-- Big-endian uppercase hex digits, with `fuel` bounding the number of
digits (any `fuel > n` is enough; see `hexCharsAux_irrel`). -/
def hexCharsAux : Nat → Nat → List Char
  | 0, _ => []
  | fuel + 1, n =>
    if n < 16 then [hexChar n]
    else hexCharsAux fuel (n / 16) ++ [hexChar (n % 16)]

/-- Big-endian uppercase hex digits of `n`, no padding. -/
def hexChars (n : Nat) : List Char := hexCharsAux (n + 1) n

/-- Model of `f"0x{n:04X}"` as a character list: lowercase `0x` prefix, hex
digits zero-padded to at least four. -/
def format04X (n : Nat) : List Char :=
  let ds := hexChars n
  '0' :: 'x' :: (List.replicate (4 - ds.length) '0' ++ ds)

/-- The extracted end-code string `ec` (see the section header). -/
def extractEc (status : Nat) : List Char := format04X status

/-- Model of `ec.upper() == "0XC061"` — the guard of the 1810h fallback at
gateway.py:167. -/
def fallbackCond (status : Nat) : Bool :=
  (extractEc status).map Char.toUpper = ['0', 'X', 'C', '0', '6', '1']

/-! ## The device value reader (`_read_plc`, gateway.py:36-49) -/

/-- Transport-visible events of one `_read_plc` call. -/
inductive RwEv where
  | evConnect (ip : String) (port : Nat)
  | evWordRead (dev : String) (count : Nat)
  | evBitRead (dev : String) (count : Nat)
  | evCloseConn
deriving DecidableEq, Repr

/-- Model of `device.upper()`: uppercase each character of the string (the
effect of `String.toUpper`, written over the underlying character list
so that it evaluates by `decide`). -/
def strUpper (s : String) : String := ⟨s.data.map Char.toUpper⟩

/-- Responses of the `Type3E` transport to the two batch-read
primitives (keyed by the device-address string and the count). -/
structure DevTransport where
  wordVals : String → Nat → List Nat
  bitVals  : String → Nat → List Nat

/-- Model of `ValueError(f"Unsupported device '{device}'")`. -/
inductive ReadPlcErr where
  | unsupportedDevice (device : String)
deriving DecidableEq, Repr

/-- Model of `_read_plc(device, addr, length, ip=ip, port=port)`: connect, then
dispatch on `device.upper()` — `{D, W, R, ZR}` to
`batchread_wordunits(f"{upper}{addr}", length)`, `{X, Y, M}` to
`batchread_bitunits`, anything else raises `ValueError`; the connection
is closed in the `finally` on every path.  Returns the result (values
or raised error) paired with the transport event trace. -/
def read_plc (t : DevTransport) (device : String) (addr count : Nat)
    (ip : String) (port : Nat) : Except ReadPlcErr (List Nat) × List RwEv :=
  let upper := strUpper device
  if upper = "D" ∨ upper = "W" ∨ upper = "R" ∨ upper = "ZR" then
    (.ok (t.wordVals (upper ++ toString addr) count),
     [.evConnect ip port, .evWordRead (upper ++ toString addr) count, .evCloseConn])
  else if upper = "X" ∨ upper = "Y" ∨ upper = "M" then
    (.ok (t.bitVals (upper ++ toString addr) count),
     [.evConnect ip port, .evBitRead (upper ++ toString addr) count, .evCloseConn])
  else
    (.error (.unsupportedDevice device), [.evConnect ip port, .evCloseConn])

/-! ## The 1811h file search with 1810h fallback
(`api_filesearch`, gateway.py:115-197) -/

/-- Model of `str.upper()` on one code point, modelled over the ASCII range
(the filenames and extensions of the protocol are ASCII). -/
def upperCode (c : Nat) : Nat :=
  if 97 ≤ c ∧ c ≤ 122 then c - 32 else c

/-- Model of `f"{f['name']}.{f['ext']}".upper()`. -/
def fullnameUpper (f : FileEntry) : List Nat :=
  (f.name ++ 46 :: f.ext).map upperCode

/-- Responses of the transport used by the search endpoint:
`read_search_fileinfo` either returns raw bytes or raises an
`MCProtocolError` carrying an end-code `status`;
`read_directory_fileinfo(start_file_no = start, request_count = 256)`
returns a pair `(cnt, raw)` as a function of the start index. -/
structure SearchTransport where
  searchRes : Except Nat (List Nat)
  pages     : Nat → Nat × List Nat

/-- Failure outcomes of `api_filesearch`: a raised `HTTPException` with
its status code, or an uncaught decoding `IndexError` escaping from
`_parse_iqr`. -/
inductive SearchErr where
  | http (status : Nat)
  | decodeExc
deriving DecidableEq, Repr

/-- The 1810h enumeration loop of the fallback (gateway.py:168-181):
request pages of 256 starting at `start`, concatenate the decoded
entries, stop when a page reports `cnt < 256`, else advance `start` by
`cnt`.  Returns `none` in the first component when `fuel` runs out
(the Python loop has not yet exited), `some (.error ...)` when a page
fails to decode, and records the requested start indices as the trace. -/
def enumLoop (pages : Nat → Nat × List Nat) :
    Nat → Nat → List FileEntry → (Option (Except SearchErr (List FileEntry)) × List Nat)
  | 0, _, _ => (none, [])
  | fuel + 1, start, acc =>
    let page := pages start
    match parse_iqr page.2 with
    | none => (some (.error .decodeExc), [start])
    | some fs =>
      if page.1 < 256 then (some (.ok (acc ++ fs)), [start])
      else
        let r := enumLoop pages fuel (start + page.1) (acc ++ fs)
        (r.1, start :: r.2)

/-- Model of `api_filesearch` (the part past connection set-up): issue the 1811h
search; on success decode and return.  On a raised `MCProtocolError`,
extract the end-code string; if it uppercases to `"0XC061"` run the
1810h enumeration fallback from start index 1 and filter the entries by
case-insensitive full-name match against `filename`; non-empty hits are
returned, otherwise an `HTTPException` is raised with status 404 when
the extracted code was `"0XC061"` and 500 otherwise.  The second
component is the trace of fallback page start indices requested. -/
def api_filesearch (t : SearchTransport) (filename : List Nat) (fuel : Nat) :
    Option (Except SearchErr (List FileEntry)) × List Nat :=
  match t.searchRes with
  | .ok raw =>
    match parse_iqr raw with
    | none => (some (.error .decodeExc), [])
    | some fs => (some (.ok fs), [])
  | .error status =>
    if fallbackCond status then
      match enumLoop t.pages fuel 1 [] with
      | (none, tr) => (none, tr)
      | (some (.error e), tr) => (some (.error e), tr)
      | (some (.ok files), tr) =>
        let hits := files.filter (fun f => fullnameUpper f = filename.map upperCode)
        if hits ≠ [] then (some (.ok hits), tr)
        else (some (.error (.http 404)), tr)
    else (some (.error (.http 500)), [])

/-- Start index of the `i`-th fallback page when enumeration begins at
`start`: the loop advances by the reported count of each page. -/
def nthStartFrom (pages : Nat → Nat × List Nat) (start : Nat) : Nat → Nat
  | 0 => start
  | i + 1 => nthStartFrom pages (start + (pages start).1) i

/-! ## The chunked file read-all session
(`api_file_read` / `api_file_readall`, gateway.py:227-320) -/

/-- Errors of the file-transfer endpoints: `InvalidArgument` for the
local chunk-size validation, `device` for a classified remote error
raised by the transport. -/
inductive FErr where
  | invalidArgument
  | device (code : Nat)
deriving DecidableEq, Repr

/-- Transport-visible events of the file endpoints. -/
inductive FEv where
  | evOpen
  | evRead (offset length : Nat)
  | evCloseFile
deriving DecidableEq, Repr

/-- Responses of the `PlcFileControl` transport: the result of
`open_file`, the result of each `read_file(fp, offset, length)` as a
function of offset and length, and the result of `close_file`. -/
structure FileTransport where
  openRes  : Except FErr Nat
  readRes  : Nat → Nat → Except FErr (List Nat)
  closeRes : Except FErr Unit

/-- Modelled from the spec: `PlcFileControl.read_file`
(plc_filecontrol.py is not included under the sources; only its callers
are).  Per the spec, `readChunk(handle, offset, length)` requires
`length` in `[1, 1920]` and "the component rejects larger requests with
an `InvalidArgument` condition rather than forwarding them to the
remote device".  Out-of-range lengths therefore produce
`InvalidArgument` with no transport event. -/
def read_file (t : FileTransport) (offset length : Nat) :
    Except FErr (List Nat) × List FEv :=
  if length < 1 ∨ 1920 < length then (.error .invalidArgument, [])
  else (t.readRes offset length, [.evRead offset length])

/-- Model of `api_file_read` (gateway.py:227-236): forwards `offset`/`length`
to `read_file` unchanged (the endpoint itself performs no validation;
its `except` clause only re-wraps the error). -/
def api_file_read (t : FileTransport) (offset length : Nat) :
    Except FErr (List Nat) × List FEv :=
  read_file t offset length

/-- The `while True` read loop of `api_file_readall`
(gateway.py:284-296): read a chunk at `offset`; an empty chunk stops
with the accumulated content; a short chunk is appended and stops;
a full chunk is appended and the offset advances by `chunk`.  A raised
error propagates.  `none` in the first component means the fuel ran out
with the loop still running. -/
def readLoop (t : FileTransport) (chunk : Nat) :
    Nat → Nat → List Nat → (Option (Except FErr (List Nat)) × List FEv)
  | 0, _, _ => (none, [])
  | fuel + 1, offset, acc =>
    let r := read_file t offset chunk
    match r.1 with
    | .error e => (some (.error e), r.2)
    | .ok part =>
      if part.length = 0 then (some (.ok acc), r.2)
      else if part.length < chunk then (some (.ok (acc ++ part)), r.2)
      else
        let rec' := readLoop t chunk fuel (offset + chunk) (acc ++ part)
        (rec'.1, r.2 ++ rec'.2)

/-- Model of `api_file_readall` (gateway.py:262-320): validate
`0 < chunk ≤ 1920` (HTTP 400 = `InvalidArgument` otherwise), open the
file (wrapping an open failure, with no handle acquired), run the read
loop inside `try`, and in the `finally` close the handle exactly once,
with a failure of `close_file` swallowed by the inner
`try/except: pass` — the result never depends on `closeRes`.  The JSON
sidecar persistence of the content is external I/O out of scope of the
core (spec §1) and is not modelled. -/
def api_file_readall (t : FileTransport) (chunk fuel : Nat) :
    Option (Except FErr (List Nat)) × List FEv :=
  if chunk = 0 ∨ 1920 < chunk then (some (.error .invalidArgument), [])
  else
    match t.openRes with
    | .error e => (some (.error e), [.evOpen])
    | .ok _fp =>
      match readLoop t chunk fuel 0 [] with
      | (none, evs) => (none, .evOpen :: evs)
      | (some res, evs) => (some res, .evOpen :: evs ++ [.evCloseFile])

/-! ## Concrete fixtures used by witnesses and counterexamples -/

/-- A 1810h/1811h response holding the single entry `MAIN.PRG`
(attribute 9, size 16): 4-byte header, character count 8 (little
endian), UTF-16LE `MAIN.PRG`, attribute byte, 16 reserved bytes,
4-byte size. -/
def goodRaw : List Nat :=
  [0, 0, 0, 0] ++ [8, 0] ++
  [77, 0, 65, 0, 73, 0, 78, 0, 46, 0, 80, 0, 82, 0, 71, 0] ++ [9] ++
  List.replicate 16 0 ++ [16, 0, 0, 0]

/-- The code points of `"MAIN.PRG"`. -/
def mainPrg : List Nat := [77, 65, 73, 78, 46, 80, 82, 71]

/-- The decoded `MAIN.PRG` entry of `goodRaw`. -/
def mainPrgEntry : FileEntry := ⟨[77, 65, 73, 78], [80, 82, 71], 16, 9⟩

/-- Search transport whose direct 1811h search raises end-code `0xC051`
(the code `FileNotFoundError` carries) while every 1810h page holds the
sought `MAIN.PRG` entry. -/
def t051 : SearchTransport := ⟨.error 0xC051, fun _ => (1, goodRaw)⟩

/-- Same transport but raising end-code `0xC061` from the search. -/
def t061 : SearchTransport := ⟨.error 0xC061, fun _ => (1, goodRaw)⟩

/-- A word/bit transport fixture. -/
def tDev : DevTransport := ⟨fun _ _ => [11, 22], fun _ _ => [1, 0, 1]⟩

/-- File transport returning chunks of 1920, 1920 and 1160 bytes at
offsets 0, 1920 and 3840, and empty chunks elsewhere. -/
def tC3 : FileTransport :=
  ⟨.ok 1,
   fun off _ =>
     if off = 0 ∨ off = 1920 then .ok (List.replicate 1920 7)
     else if off = 3840 then .ok (List.replicate 1160 7) else .ok [],
   .ok ()⟩

/-- The chunk sizes served by `tC3`, by read index. -/
def parts3 (j : Nat) : List Nat :=
  if j = 0 ∨ j = 1 then List.replicate 1920 7
  else if j = 2 then List.replicate 1160 7 else []

/-- File transport whose very first chunk is empty and whose close
fails. -/
def t1 : FileTransport := ⟨.ok 1, fun _ _ => .ok [], .error (.device 7)⟩

/-! ## C2 — the end-code classifier -/

/-- C2: For every end-code, the classifier returns no error for 0;
maps `0xC051` to FileNotFound, `0xC052` to DriveNotFound, `0xC053` to
AccessDenied, `0xC059` to UnsupportedCommand; and for every other
non-zero code yields a Generic error preserving the raw code. -/
theorem claim_C2 :
    check_mcprotocol_error 0 = none ∧
    check_mcprotocol_error 0xC051 = some ⟨.fileNotFound, 0xC051⟩ ∧
    check_mcprotocol_error 0xC052 = some ⟨.driveNotFound, 0xC052⟩ ∧
    check_mcprotocol_error 0xC053 = some ⟨.accessDenied, 0xC053⟩ ∧
    check_mcprotocol_error 0xC059 = some ⟨.unsupportedCommand, 0xC059⟩ ∧
    ∀ s : Nat, s ≠ 0 → s ≠ 0xC051 → s ≠ 0xC052 → s ≠ 0xC053 → s ≠ 0xC059 →
      check_mcprotocol_error s = some ⟨.generic, s⟩ := by
  refine ⟨by decide, by decide, by decide, by decide, by decide, ?_⟩
  intro s h0 h1 h2 h3 h4
  simp [check_mcprotocol_error, error_map, h0, h1, h2, h3, h4]

/-- Witness for C2 at the unmapped code `0xC0FF`. -/
theorem claim_C2_witness :
    check_mcprotocol_error 0xC0FF = some ⟨.generic, 0xC0FF⟩ :=
  claim_C2.2.2.2.2.2 0xC0FF (by decide) (by decide) (by decide) (by decide)
    (by decide)

/-! ## C5 — the device value reader -/

/-- C5 (amended): A device code outside
`{D, W, R, ZR, X, Y, M}` fails with UnsupportedDevice, but only *after*
a connection has been opened (and closed again); no batch-read call is
issued.  Word codes go to the batch word-read with `f"{code}{addr}"`
and the count, bit codes to the batch bit-read. -/
theorem claim_C5_amended (t : DevTransport) (device : String)
    (addr count : Nat) (ip : String) (port : Nat) :
    (strUpper device ≠ "D" → strUpper device ≠ "W" → strUpper device ≠ "R" →
     strUpper device ≠ "ZR" → strUpper device ≠ "X" → strUpper device ≠ "Y" →
     strUpper device ≠ "M" →
      read_plc t device addr count ip port =
        (.error (.unsupportedDevice device),
         [.evConnect ip port, .evCloseConn])) ∧
    ((strUpper device = "D" ∨ strUpper device = "W" ∨ strUpper device = "R" ∨
      strUpper device = "ZR") →
      read_plc t device addr count ip port =
        (.ok (t.wordVals (strUpper device ++ toString addr) count),
         [.evConnect ip port,
          .evWordRead (strUpper device ++ toString addr) count,
          .evCloseConn])) ∧
    ((strUpper device = "X" ∨ strUpper device = "Y" ∨ strUpper device = "M") →
      read_plc t device addr count ip port =
        (.ok (t.bitVals (strUpper device ++ toString addr) count),
         [.evConnect ip port,
          .evBitRead (strUpper device ++ toString addr) count,
          .evCloseConn])) := by
  refine ⟨?_, ?_, ?_⟩
  · intro h1 h2 h3 h4 h5 h6 h7
    simp [read_plc, h1, h2, h3, h4, h5, h6, h7]
  · rintro (h | h | h | h) <;> simp [read_plc, h]
  · rintro (h | h | h) <;> simp [read_plc, h]

/-- Witness for the amended C5 at `"Q"`, `"D100"` length 5 and `"Y20"`
length 8. -/
theorem claim_C5_amended_witness :
    read_plc tDev "Q" 0 1 "ip" 1 =
      (.error (.unsupportedDevice "Q"),
       [.evConnect "ip" 1, .evCloseConn]) ∧
    read_plc tDev "D" 100 5 "ip" 1 =
      (.ok (tDev.wordVals "D100" 5),
       [.evConnect "ip" 1, .evWordRead "D100" 5, .evCloseConn]) ∧
    read_plc tDev "Y" 20 8 "ip" 1 =
      (.ok (tDev.bitVals "Y20" 8),
       [.evConnect "ip" 1, .evBitRead "Y20" 8, .evCloseConn]) :=
  ⟨(claim_C5_amended tDev "Q" 0 1 "ip" 1).1 (by decide) (by decide) (by decide)
      (by decide) (by decide) (by decide) (by decide),
   (claim_C5_amended tDev "D" 100 5 "ip" 1).2.1 (by decide),
   (claim_C5_amended tDev "Y" 20 8 "ip" 1).2.2 (by decide)⟩

/-- C5 counterexample: For device code `"Q"` the reader does raise
UnsupportedDevice, but only after issuing a `connect` to the transport:
the claim's "before any connection is attempted — zero side effects and
no transport call" is false. -/
theorem claim_C5_counterexample :
    (read_plc tDev "Q" 0 1 "192.168.0.1" 5511).1 =
      .error (.unsupportedDevice "Q") ∧
    (read_plc tDev "Q" 0 1 "192.168.0.1" 5511).2 ≠ [] ∧
    RwEv.evConnect "192.168.0.1" 5511 ∈
      (read_plc tDev "Q" 0 1 "192.168.0.1" 5511).2 := by
  refine ⟨by decide, by decide, ?_⟩
  decide

/-! ## C7 — truncated input must not raise (code bug) -/

/-- C7 (code bug): The claim (and spec §7) requires that a buffer
truncated mid-record yields the fully contained records without raising
and without a partial entry.  The code violates both halves:

* `[0,0,0,0, 1,0]` — record header present, record truncated before the
  attribute byte: `attr = raw[idx]` raises `IndexError`
  (`parse_iqr = none`), instead of returning the zero complete entries;
* `[0,0,0,0, 1,0, 65,0, 7]` — truncated after the attribute byte: the
  clamped size slice turns into `size = 0` and a *partial* entry for the
  truncated record is emitted. -/
theorem claim_C7_bug :
    parse_iqr [0, 0, 0, 0, 1, 0] = none ∧
    parse_iqr [0, 0, 0, 0, 1, 0, 65, 0, 7] = some [⟨[65], [], 0, 7⟩] := by
  decide

/-! ## Lemmas about the read loop -/

/-- Every event a single `read_file` call emits is the matching
transport read. -/
lemma read_file_events (t : FileTransport) (offset l : Nat) :
    ∀ ev ∈ (read_file t offset l).2, ev = FEv.evRead offset l := by
  intro ev hev
  rw [read_file] at hev
  split at hev
  · simp at hev
  · simpa using hev

/-- Every event the read loop emits is a transport read of `chunk`
bytes. -/
lemma readLoop_events (t : FileTransport) (chunk : Nat) :
    ∀ (fuel offset : Nat) (acc : List Nat) (ev : FEv),
      ev ∈ (readLoop t chunk fuel offset acc).2 → ∃ o, ev = .evRead o chunk := by
  intro fuel
  induction fuel with
  | zero => intro offset acc ev h; simp [readLoop] at h
  | succ fuel ih =>
    intro offset acc ev h
    simp only [readLoop] at h
    cases h1 : (read_file t offset chunk).1 with
    | error e =>
      simp only [h1] at h
      exact ⟨offset, read_file_events t offset chunk ev h⟩
    | ok part =>
      simp only [h1] at h
      by_cases hz : part.length = 0
      · rw [if_pos hz] at h
        exact ⟨offset, read_file_events t offset chunk ev h⟩
      · rw [if_neg hz] at h
        by_cases hs : part.length < chunk
        · rw [if_pos hs] at h
          exact ⟨offset, read_file_events t offset chunk ev h⟩
        · rw [if_neg hs] at h
          rcases List.mem_append.1 h with h' | h'
          · exact ⟨offset, read_file_events t offset chunk ev h'⟩
          · exact ih _ _ _ h'

/-- The read loop never emits a close event. -/
lemma readLoop_no_close (t : FileTransport) (chunk : Nat) :
    ∀ (fuel offset : Nat) (acc : List Nat),
      FEv.evCloseFile ∉ (readLoop t chunk fuel offset acc).2 := by
  intro fuel offset acc h
  obtain ⟨o, ho⟩ := readLoop_events t chunk fuel offset acc _ h
  cases ho

/-- The read loop does not depend on the close response of the
transport. -/
lemma readLoop_closeRes (oRes : Except FErr Nat)
    (rRes : Nat → Nat → Except FErr (List Nat)) (tc cr : Except FErr Unit)
    (chunk : Nat) :
    ∀ (fuel offset : Nat) (acc : List Nat),
      readLoop ⟨oRes, rRes, cr⟩ chunk fuel offset acc =
        readLoop ⟨oRes, rRes, tc⟩ chunk fuel offset acc := by
  intro fuel
  induction fuel with
  | zero => intro offset acc; rfl
  | succ fuel ih =>
    intro offset acc
    have hrf : read_file ⟨oRes, rRes, cr⟩ offset chunk =
        read_file ⟨oRes, rRes, tc⟩ offset chunk := rfl
    simp only [readLoop, hrf]
    cases h1 : (read_file (⟨oRes, rRes, tc⟩ : FileTransport) offset chunk).1 with
    | error e => rfl
    | ok part =>
      split
      · rfl
      · split
        · rfl
        · rw [ih]

/-! ## C9 — chunk length validation -/

/-- C9: A read request with a length outside `[1, 1920]` fails with
InvalidArgument and nothing is forwarded to the transport; and the
read-all loop never issues a chunk read whose length is outside
`[1, 1920]` (every read event it emits carries an in-range length). -/
theorem claim_C9 (t : FileTransport) (offset length chunk fuel : Nat) :
    (length < 1 ∨ 1920 < length →
      api_file_read t offset length = (.error .invalidArgument, [])) ∧
    (∀ ev ∈ (api_file_readall t chunk fuel).2, ∀ o l,
      ev = FEv.evRead o l → 1 ≤ l ∧ l ≤ 1920) := by
  constructor
  · intro h
    rw [api_file_read, read_file, if_pos h]
  · intro ev hev o l hev'
    subst hev'
    rw [api_file_readall] at hev
    by_cases hc : chunk = 0 ∨ 1920 < chunk
    · rw [if_pos hc] at hev
      simp at hev
    · rw [if_neg hc] at hev
      cases ho : t.openRes with
      | error e => rw [ho] at hev; simp at hev
      | ok fp =>
        rw [ho] at hev
        rcases hl : readLoop t chunk fuel 0 [] with ⟨ores, levs⟩
        rw [hl] at hev
        have key : FEv.evRead o l ∈ levs → 1 ≤ l ∧ l ≤ 1920 := by
          intro he
          obtain ⟨o', ho'⟩ :=
            readLoop_events t chunk fuel 0 [] _ (by rw [hl]; exact he)
          injection ho' with h1 h2
          omega
        cases ores with
        | none =>
          simp only [List.mem_cons] at hev
          rcases hev with h | h
          · simp at h
          · exact key h
        | some res =>
          simp only [List.cons_append, List.mem_cons, List.mem_append,
            List.mem_singleton] at hev
          rcases hev with h | h | h
          · simp at h
          · exact key h
          · simp at h

/-- Witness for C9: a request of length 5000 is rejected locally, and
a concrete read event of the read-all trace of `t1` carries an in-range
length. -/
theorem claim_C9_witness :
    api_file_read tC3 0 5000 = (.error .invalidArgument, []) ∧
    (1 ≤ 5 ∧ 5 ≤ 1920) :=
  ⟨(claim_C9 tC3 0 5000 1920 10).1 (by omega),
   (claim_C9 t1 0 5000 5 3).2 (.evRead 0 5) (by decide) 0 5 rfl⟩

/-! ## C1 — exactly one close on every exit path -/

/-- C1: In every terminating session whose `open` succeeds (with a
valid chunk size, so that the open is actually attempted), the event
trace contains exactly one file close — on the normal-completion path
and on every read-error path alike — and the whole outcome (result and
trace) is unchanged under an arbitrary close response: a close failure
is suppressed and can never replace an earlier read failure. -/
theorem claim_C1 (t : FileTransport) (cr : Except FErr Unit)
    (chunk fuel fp : Nat) (res : Except FErr (List Nat)) (evs : List FEv)
    (hc1 : 1 ≤ chunk) (hc2 : chunk ≤ 1920)
    (hopen : t.openRes = .ok fp)
    (hrun : api_file_readall t chunk fuel = (some res, evs)) :
    evs.count .evCloseFile = 1 ∧
    api_file_readall { t with closeRes := cr } chunk fuel =
      (some res, evs) := by
  have hcond : ¬(chunk = 0 ∨ 1920 < chunk) := by omega
  obtain ⟨oR, rR, cR⟩ := t
  have hto : oR = .ok fp := hopen
  subst hto
  simp only [api_file_readall, if_neg hcond] at hrun ⊢
  rcases hl : readLoop ⟨.ok fp, rR, cR⟩ chunk fuel 0 [] with ⟨ores, levs⟩
  rw [hl] at hrun
  cases ores with
  | none => simp at hrun
  | some r =>
    simp only [Option.some.injEq, Prod.mk.injEq] at hrun
    obtain ⟨hr, hevs⟩ := hrun
    subst hr
    constructor
    · rw [← hevs]
      have hnc : FEv.evCloseFile ∉ levs := by
        have h := readLoop_no_close ⟨.ok fp, rR, cR⟩ chunk fuel 0 []
        rw [hl] at h
        exact h
      simp [List.count_cons, List.count_append, List.count_eq_zero.2 hnc]
    · rw [readLoop_closeRes (.ok fp) rR cR cr chunk fuel 0 [], hl]
      show (some r, FEv.evOpen :: levs ++ [FEv.evCloseFile]) = (some r, evs)
      rw [hevs]

/-- Witness for C1: the session over `t1` (first chunk empty, close
failing) closes exactly once and its outcome is independent of the
close response. -/
theorem claim_C1_witness :
    ([FEv.evOpen, FEv.evRead 0 5, FEv.evCloseFile].count FEv.evCloseFile
      = 1) ∧
    api_file_readall { t1 with closeRes := .ok () } 5 3 =
      (some (.ok []), [FEv.evOpen, FEv.evRead 0 5, FEv.evCloseFile]) :=
  claim_C1 t1 (.ok ()) 5 3 1 (.ok [])
    [FEv.evOpen, FEv.evRead 0 5, FEv.evCloseFile]
    (by omega) (by omega) rfl (by rfl)

/-! ## C3 — the read-all loop -/

/-- Characterization of the read loop: if the transport serves `n` full
chunks at offsets `s*chunk, (s+1)*chunk, …` followed by one short (or
empty) chunk, the loop returns the concatenation and issues exactly the
`n + 1` reads at those offsets. -/
lemma readLoop_run (t : FileTransport) (chunk : Nat) (parts : Nat → List Nat)
    (hc1 : 1 ≤ chunk) (hc2 : chunk ≤ 1920) :
    ∀ (n fuel s : Nat) (acc : List Nat),
      (∀ j, s ≤ j → j ≤ s + n → t.readRes (j * chunk) chunk = .ok (parts j)) →
      (∀ j, s ≤ j → j < s + n → (parts j).length = chunk) →
      (parts (s + n)).length < chunk →
      n < fuel →
      readLoop t chunk fuel (s * chunk) acc =
        (some (.ok (acc ++ ((List.range' s (n + 1)).map parts).flatten)),
         (List.range' s (n + 1)).map (fun j => FEv.evRead (j * chunk) chunk)) := by
  intro n
  induction n with
  | zero =>
    intro fuel s acc hread hfull hlast hfuel
    obtain ⟨f, rfl⟩ : ∃ f, fuel = f + 1 := ⟨fuel - 1, by omega⟩
    have hr0 : t.readRes (s * chunk) chunk = .ok (parts s) :=
      hread s (by omega) (by omega)
    have hrf : read_file t (s * chunk) chunk =
        (.ok (parts s), [.evRead (s * chunk) chunk]) := by
      rw [read_file, if_neg (by omega : ¬(chunk < 1 ∨ 1920 < chunk)), hr0]
    have hl0 : (parts s).length < chunk := by simpa using hlast
    simp only [readLoop, hrf]
    by_cases hz : (parts s).length = 0
    · rw [if_pos hz]
      have hnil : parts s = [] := List.length_eq_zero.1 hz
      simp [hnil]
    · rw [if_neg hz, if_pos hl0]
      simp
  | succ n ih =>
    intro fuel s acc hread hfull hlast hfuel
    obtain ⟨f, rfl⟩ : ∃ f, fuel = f + 1 := ⟨fuel - 1, by omega⟩
    have hr0 : t.readRes (s * chunk) chunk = .ok (parts s) :=
      hread s (by omega) (by omega)
    have hrf : read_file t (s * chunk) chunk =
        (.ok (parts s), [.evRead (s * chunk) chunk]) := by
      rw [read_file, if_neg (by omega : ¬(chunk < 1 ∨ 1920 < chunk)), hr0]
    have hlen0 : (parts s).length = chunk := hfull s (by omega) (by omega)
    simp only [readLoop, hrf]
    rw [if_neg (by omega : ¬(parts s).length = 0),
      if_neg (by omega : ¬(parts s).length < chunk),
      show s * chunk + chunk = (s + 1) * chunk by ring,
      ih f (s + 1) (acc ++ parts s)
        (fun j h1 h2 => hread j (by omega) (by omega))
        (fun j h1 h2 => hfull j (by omega) (by omega))
        (by
          have h' := hlast
          rw [show s + (n + 1) = s + 1 + n by omega] at h'
          exact h')
        (by omega)]
    rw [List.range'_succ s (n + 1)]
    simp [List.append_assoc]

/-- C3: For every chunk size `c ∈ [1, 1920]` and every transport
serving `n` full chunks at offsets `0, c, 2c, …` followed by a short or
empty one, `api_file_readall` starts at offset 0, advances the offset
by `c` after each full chunk, returns the concatenation of all returned
bytes, and issues exactly `n + 1` reads — none after the short chunk. -/
theorem claim_C3 (t : FileTransport) (chunk n fuel fp : Nat)
    (parts : Nat → List Nat)
    (hc1 : 1 ≤ chunk) (hc2 : chunk ≤ 1920)
    (hopen : t.openRes = .ok fp)
    (hread : ∀ j, j ≤ n → t.readRes (j * chunk) chunk = .ok (parts j))
    (hfull : ∀ j, j < n → (parts j).length = chunk)
    (hlast : (parts n).length < chunk)
    (hfuel : n < fuel) :
    api_file_readall t chunk fuel =
      (some (.ok (((List.range (n + 1)).map parts).flatten)),
       .evOpen ::
         ((List.range (n + 1)).map (fun j => FEv.evRead (j * chunk) chunk) ++
           [.evCloseFile])) := by
  have hrun := readLoop_run t chunk parts hc1 hc2 n fuel 0 []
    (fun j h1 h2 => hread j (by omega))
    (fun j h1 h2 => hfull j (by omega))
    (by simpa using hlast)
    hfuel
  rw [zero_mul] at hrun
  rw [← List.range_eq_range'] at hrun
  simp only [api_file_readall,
    if_neg (by omega : ¬(chunk = 0 ∨ 1920 < chunk)), hopen, hrun]
  simp

/-- Witness for C3: the `[1920, 1920, 1160]` transport `tC3` yields
exactly 5000 bytes in three reads at offsets 0, 1920 and 3840, with a
single close and no fourth read. -/
theorem claim_C3_witness :
    api_file_readall tC3 1920 10 =
      (some (.ok (List.replicate 1920 7 ++
        (List.replicate 1920 7 ++ List.replicate 1160 7))),
       [.evOpen, .evRead 0 1920, .evRead 1920 1920, .evRead 3840 1920,
        .evCloseFile]) ∧
    (List.replicate 1920 7 ++
      (List.replicate 1920 7 ++ List.replicate 1160 7)).length = 5000 := by
  have h := claim_C3 tC3 1920 2 10 1 parts3 (by omega) (by omega) rfl
    (by
      intro j hj
      interval_cases j <;> rfl)
    (by
      intro j hj
      interval_cases j <;> simp [parts3, -List.reduceReplicate])
    (by simp [parts3, -List.reduceReplicate])
    (by omega)
  rw [h]
  refine ⟨?_, by simp [-List.reduceReplicate]⟩
  rw [show List.range (2 + 1) = [0, 1, 2] from rfl]
  simp [parts3, -List.reduceReplicate]

/-! ## C10 — NUL stripping before the name/extension split -/

/-- The head of a `dropWhile (· = 0)` is never `0`. -/
lemma head?_dropWhile_nul (l : List Nat) :
    (l.dropWhile (fun x => x = 0)).head? ≠ some 0 := by
  induction l with
  | nil => simp
  | cons a l ih =>
    by_cases ha : a = 0
    · simpa [List.dropWhile_cons, ha] using ih
    · simp [List.dropWhile_cons, ha]

/-- Model of `rstripNul` leaves no trailing NUL. -/
lemma rstripNul_getLast? (s : List Nat) :
    (rstripNul s).getLast? ≠ some 0 := by
  rw [rstripNul, List.getLast?_reverse]
  exact head?_dropWhile_nul s.reverse

/-- A non-empty extension part of `partitionDot` ends where the whole
string ends. -/
lemma partitionDot_ext_getLast? :
    ∀ s : List Nat, (partitionDot s).2 ≠ [] →
      (partitionDot s).2.getLast? = s.getLast? := by
  intro s
  induction s with
  | nil => intro h; simp [partitionDot] at h
  | cons c rest ih =>
    intro h
    by_cases hc : c = 46
    · simp only [partitionDot, if_pos hc] at h ⊢
      cases rest with
      | nil => exact absurd rfl h
      | cons b l => rw [List.getLast?_cons_cons]
    · simp only [partitionDot, if_neg hc] at h ⊢
      have hrest : rest ≠ [] := by
        intro hr
        subst hr
        simp [partitionDot] at h
      cases rest with
      | nil => exact absurd rfl hrest
      | cons b l => rw [List.getLast?_cons_cons]; exact ih h

/-- Every entry the record loop emits was produced by splitting an
NUL-rstripped decoded filename at the first dot. -/
lemma parseLoopF_entries :
    ∀ (fuel : Nat) (raw : List Nat) (idx : Nat) (entries : List FileEntry),
      parseLoopF fuel raw idx = some entries →
      ∀ e ∈ entries,
        ∃ d, e.name = (partitionDot (rstripNul d)).1 ∧
             e.ext = (partitionDot (rstripNul d)).2 := by
  intro fuel
  induction fuel with
  | zero =>
    intro raw idx entries h e he
    rw [parseLoopF] at h
    split at h
    · cases h
    · cases h
      simp at he
  | succ fuel ih =>
    intro raw idx entries h e he
    simp only [parseLoopF] at h
    by_cases hg : idx + 2 ≤ raw.length
    · rw [if_pos hg] at h
      by_cases hs : le (slice raw idx 2) = 0 ∨ le (slice raw idx 2) = 0xFFFF
      · rw [if_pos hs] at h
        cases h
        simp at he
      · rw [if_neg hs] at h
        split at h
        · rename_i h2
          cases hrec : parseLoopF fuel raw (idx + 2 + le (slice raw idx 2) * 2 + 17 + 4) with
          | none => rw [hrec] at h; cases h
          | some rest =>
            rw [hrec] at h
            cases h
            rcases List.mem_cons.1 he with he' | he'
            · subst he'
              exact ⟨decodeUnits (utf16leUnits
                  (slice raw (idx + 2) (le (slice raw idx 2) * 2))), rfl, rfl⟩
            · exact ih raw _ rest hrec e he'
        · cases h
    · rw [if_neg hg] at h
      cases h
      simp at he

/-- C10 (amended): Every entry emitted by the decoder comes from
stripping trailing NULs off the decoded filename *before* the split at
the first dot; consequently a non-empty extension never ends with a NUL
— but a NUL sitting before the first dot can survive at the end of the
name part. -/
theorem claim_C10_amended (raw : List Nat) (entries : List FileEntry)
    (hdec : parse_iqr raw = some entries) :
    ∀ e ∈ entries,
      (∃ d, e.name = (partitionDot (rstripNul d)).1 ∧
            e.ext = (partitionDot (rstripNul d)).2) ∧
      (e.ext ≠ [] → e.ext.getLast? ≠ some 0) := by
  intro e he
  obtain ⟨d, hn, hx⟩ := parseLoopF_entries _ raw 4 entries hdec e he
  refine ⟨⟨d, hn, hx⟩, ?_⟩
  intro hne h0
  rw [hx] at hne h0
  rw [partitionDot_ext_getLast? (rstripNul d) hne] at h0
  exact rstripNul_getLast? d h0

/-- Witness for the amended C10 at the concrete `goodRaw` response. -/
theorem claim_C10_amended_witness :
    ([80, 82, 71] : List Nat).getLast? ≠ some 0 :=
  (claim_C10_amended goodRaw [mainPrgEntry] (by decide) mainPrgEntry
    (by decide)).2 (by decide)

/-- A response whose record's filename is `A\x00.P`: the decoded name
has no trailing NUL to strip, and the NUL before the dot stays at the
end of the name part. -/
def raw10 : List Nat :=
  [0, 0, 0, 0] ++ [4, 0] ++ [65, 0, 0, 0, 46, 0, 80, 0] ++ [0] ++
  List.replicate 16 0 ++ [0, 0, 0, 0]

/-- C10 counterexample: On `raw10` the decoder emits an entry whose
*name* ends with a NUL code point, refuting "no returned entry's name
or extension ends with NUL padding". -/
theorem claim_C10_counterexample :
    parse_iqr raw10 = some [⟨[65, 0], [80], 0, 0⟩] ∧
    ([65, 0] : List Nat).getLast? = some 0 := by
  decide

/-! ## C6 — where the filename lives inside a record -/

/-- The record loop's result does not depend on the fuel, provided the
fuel covers the worst case of one 23-byte record per iteration. -/
lemma parseLoopF_irrel :
    ∀ (fuel fuel' : Nat) (raw : List Nat) (idx : Nat),
      raw.length ≤ idx + 23 * fuel + 1 → raw.length ≤ idx + 23 * fuel' + 1 →
      parseLoopF fuel raw idx = parseLoopF fuel' raw idx := by
  intro fuel
  induction fuel with
  | zero =>
    intro fuel' raw idx h h'
    have hg : ¬(idx + 2 ≤ raw.length) := by omega
    cases fuel' with
    | zero => rfl
    | succ f' =>
      simp only [parseLoopF]
      rw [if_neg hg, if_neg hg]
  | succ f ih =>
    intro fuel' raw idx h h'
    cases fuel' with
    | zero =>
      have hg : ¬(idx + 2 ≤ raw.length) := by omega
      simp only [parseLoopF]
      rw [if_neg hg, if_neg hg]
    | succ f' =>
      simp only [parseLoopF]
      by_cases hg : idx + 2 ≤ raw.length
      · rw [if_pos hg, if_pos hg]
        by_cases hs : le (slice raw idx 2) = 0 ∨ le (slice raw idx 2) = 0xFFFF
        · rw [if_pos hs, if_pos hs]
        · rw [if_neg hs, if_neg hs]
          by_cases h2 : idx + 2 + le (slice raw idx 2) * 2 < raw.length
          · rw [dif_pos h2, dif_pos h2,
              ih f' raw (idx + 2 + le (slice raw idx 2) * 2 + 17 + 4)
                (by omega) (by omega)]
          · rw [dif_neg h2, dif_neg h2]
      · rw [if_neg hg, if_neg hg]

/-- Element of an append just past the left part. -/
lemma getElem_append_cons :
    ∀ (A B : List Nat) (x : Nat) (h : A.length < (A ++ x :: B).length),
      (A ++ x :: B)[A.length] = x := by
  intro A
  induction A with
  | nil => intro B x h; rfl
  | cons a A ih =>
    intro B x h
    simp only [List.cons_append, List.length_cons, List.getElem_cons_succ]
    exact ih B x (by simp only [List.length_cons, List.cons_append] at h; omega)

/-- The sentinel: a leading 2-byte little-endian field of `0` or
`0xFFFF` terminates the loop without emitting an entry. -/
lemma parseLoopF_sentinel (fuel : Nat) (pre tail : List Nat) (b0 b1 : Nat)
    (hs : b0 + 256 * b1 = 0 ∨ b0 + 256 * b1 = 0xFFFF) :
    parseLoopF (fuel + 1) (pre ++ b0 :: b1 :: tail) pre.length = some [] := by
  have hguard : pre.length + 2 ≤ (pre ++ b0 :: b1 :: tail).length := by
    simp
  have hslice : slice (pre ++ b0 :: b1 :: tail) pre.length 2 = [b0, b1] := by
    rw [slice, List.drop_left]
    rfl
  have hchars : le (slice (pre ++ b0 :: b1 :: tail) pre.length 2) =
      b0 + 256 * b1 := by
    rw [hslice]
    simp [le]
  simp only [parseLoopF]
  rw [if_pos hguard, hchars, if_pos hs]

/-- One well-formed record at position `pre.length`: the leading 2-byte
little-endian field is the character count `b0 + 256*b1`, the following
`(b0 + 256*b1) * 2` bytes are the UTF-16LE filename, then come the
attribute byte, 16 reserved bytes and the 4-byte size; the loop emits
the corresponding entry and continues right after the record. -/
lemma parseLoopF_step (fuel : Nat) (pre nameB res16 szB rest : List Nat)
    (b0 b1 attr : Nat)
    (hb0 : b0 + 256 * b1 ≠ 0) (hbff : b0 + 256 * b1 ≠ 0xFFFF)
    (hname : nameB.length = (b0 + 256 * b1) * 2)
    (hres : res16.length = 16) (hsz : szB.length = 4) :
    parseLoopF (fuel + 1)
        (pre ++ b0 :: b1 :: (nameB ++ attr :: (res16 ++ (szB ++ rest))))
        pre.length =
      (parseLoopF fuel
          (pre ++ b0 :: b1 :: (nameB ++ attr :: (res16 ++ (szB ++ rest))))
          (pre.length + 2 + (b0 + 256 * b1) * 2 + 17 + 4)).map
        (fun es =>
          ⟨(partitionDot (rstripNul (decodeUnits (utf16leUnits nameB)))).1,
           (partitionDot (rstripNul (decodeUnits (utf16leUnits nameB)))).2,
           le szB, attr⟩ :: es) := by
  set raw := pre ++ b0 :: b1 :: (nameB ++ attr :: (res16 ++ (szB ++ rest)))
    with hraw
  have hlen : raw.length =
      pre.length + 23 + (b0 + 256 * b1) * 2 + rest.length := by
    simp [hraw, hname, hres, hsz]
    omega
  have hguard : pre.length + 2 ≤ raw.length := by omega
  have hslice2 : slice raw pre.length 2 = [b0, b1] := by
    rw [hraw, slice, List.drop_left]
    rfl
  have hchars : le (slice raw pre.length 2) = b0 + 256 * b1 := by
    rw [hslice2]
    simp [le]
  have hre1 : raw = (pre ++ [b0, b1]) ++
      (nameB ++ attr :: (res16 ++ (szB ++ rest))) := by
    simp [hraw]
  have hname_slice :
      slice raw (pre.length + 2) ((b0 + 256 * b1) * 2) = nameB := by
    rw [hre1, slice,
      show pre.length + 2 = (pre ++ [b0, b1]).length by simp,
      List.drop_left, ← hname, List.take_left]
  have hattr_idx : pre.length + 2 + (b0 + 256 * b1) * 2 < raw.length := by
    omega
  have hre2 : raw = ((pre ++ [b0, b1]) ++ nameB) ++
      attr :: (res16 ++ (szB ++ rest)) := by
    simp [hraw]
  have hidx2 : pre.length + 2 + (b0 + 256 * b1) * 2 =
      ((pre ++ [b0, b1]) ++ nameB).length := by
    simp [hname]
    omega
  have hattr : raw[pre.length + 2 + (b0 + 256 * b1) * 2] =
      attr := by
    have h := getElem_append_cons ((pre ++ [b0, b1]) ++ nameB)
      (res16 ++ (szB ++ rest)) attr
      (by rw [← hre2, ← hidx2]; exact hattr_idx)
    rw [← h]
    congr 1
  have hre3 : raw = (((pre ++ [b0, b1]) ++ nameB) ++ attr :: res16) ++
      (szB ++ rest) := by
    simp [hraw]
  have hsz_slice :
      slice raw (pre.length + 2 + (b0 + 256 * b1) * 2 + 17) 4 = szB := by
    rw [hre3, slice,
      show pre.length + 2 + (b0 + 256 * b1) * 2 + 17 =
        ((((pre ++ [b0, b1]) ++ nameB) ++ attr :: res16)).length by
          simp [hname, hres]
          omega,
      List.drop_left, ← hsz, List.take_left]
  simp only [parseLoopF]
  rw [if_pos hguard, hchars,
    if_neg (by push_neg; exact ⟨hb0, hbff⟩), hname_slice,
    dif_pos hattr_idx, hattr, hsz_slice]
  cases parseLoopF fuel raw (pre.length + 2 + (b0 + 256 * b1) * 2 + 17 + 4)
    <;> rfl

/-- C6 (amended): The decoder locates each record's filename by a
*leading* 2-byte *little-endian* character count `N = b0 + 256*b1` at
the start of the record, followed by `N*2` bytes of filename decoded as
16-bit little-endian code units, decoded permissively; the same leading
little-endian field terminates the sequence without emitting an entry
when it is `0` or `0xFFFF`.  There is no end-anchored big-endian count. -/
theorem claim_C6_amended (hdr nameB res16 szB rest tail : List Nat)
    (b0 b1 attr : Nat) (hhdr : hdr.length = 4) :
    (b0 + 256 * b1 = 0 ∨ b0 + 256 * b1 = 0xFFFF →
      parse_iqr (hdr ++ b0 :: b1 :: tail) = some []) ∧
    (b0 + 256 * b1 ≠ 0 → b0 + 256 * b1 ≠ 0xFFFF →
     nameB.length = (b0 + 256 * b1) * 2 → res16.length = 16 →
     szB.length = 4 →
      parse_iqr (hdr ++ b0 :: b1 :: (nameB ++ attr :: (res16 ++ (szB ++ rest)))) =
        (parseLoopF
            ((hdr ++ b0 :: b1 :: (nameB ++ attr :: (res16 ++ (szB ++ rest)))).length + 1)
            (hdr ++ b0 :: b1 :: (nameB ++ attr :: (res16 ++ (szB ++ rest))))
            (4 + 2 + (b0 + 256 * b1) * 2 + 17 + 4)).map
          (fun es =>
            ⟨(partitionDot (rstripNul (decodeUnits (utf16leUnits nameB)))).1,
             (partitionDot (rstripNul (decodeUnits (utf16leUnits nameB)))).2,
             le szB, attr⟩ :: es)) := by
  constructor
  · intro hs
    rw [parse_iqr, show (4 : Nat) = hdr.length from hhdr.symm]
    exact parseLoopF_sentinel _ hdr tail b0 b1 hs
  · intro hb0 hbff hname hres hsz
    rw [parse_iqr, show (4 : Nat) = hdr.length from hhdr.symm]
    rw [parseLoopF_step
      (hdr ++ b0 :: b1 :: (nameB ++ attr :: (res16 ++ (szB ++ rest)))).length
      hdr nameB res16 szB rest b0 b1 attr hb0 hbff hname hres hsz]
    rw [parseLoopF_irrel
      (hdr ++ b0 :: b1 :: (nameB ++ attr :: (res16 ++ (szB ++ rest)))).length
      ((hdr ++ b0 :: b1 :: (nameB ++ attr :: (res16 ++ (szB ++ rest)))).length + 1)
      _ _ (by omega) (by omega), hhdr]

/-- Witness for the amended C6: assembling `goodRaw` from its record
fields and decoding it through the step rule yields the `MAIN.PRG`
entry. -/
theorem claim_C6_amended_witness :
    parse_iqr goodRaw = some [mainPrgEntry] := by
  have h := (claim_C6_amended [0, 0, 0, 0]
    [77, 0, 65, 0, 73, 0, 78, 0, 46, 0, 80, 0, 82, 0, 71, 0]
    (List.replicate 16 0) [16, 0, 0, 0] [] [] 8 0 9 rfl).2
    (by decide) (by decide) (by decide) (by decide) (by decide)
  rw [show goodRaw = [0, 0, 0, 0] ++ 8 :: 0 ::
    ([77, 0, 65, 0, 73, 0, 78, 0, 46, 0, 80, 0, 82, 0, 71, 0] ++ 9 ::
      (List.replicate 16 0 ++ ([16, 0, 0, 0] ++ []))) from by decide, h]
  decide

/-- Modelled from the spec (the words of claim C6, §4.2 step 4 of the
spec): within a record's variable-length area, the *last* 2 bytes read
*big-endian* give a character count `N`, and the `N*2` bytes preceding
them are the filename as 16-bit little-endian code units.  This is the
refinement foil the decoder is compared against. -/
def claimC6_tailName (tail : List Nat) : Option (List Nat) :=
  if 2 ≤ tail.length then
    let n := be (slice tail (tail.length - 2) 2)
    if n * 2 + 2 ≤ tail.length then
      some (decodeUnits (utf16leUnits
        (slice tail (tail.length - 2 - n * 2) (n * 2))))
    else none
  else none

/-- A response holding one record whose variable-length area is
`[1, 0, 65, 0]` (count 1, filename `A`), followed by the attribute
byte, 16 reserved bytes and the size. -/
def cRaw6 : List Nat :=
  [0, 0, 0, 0] ++ [1, 0, 65, 0] ++ [7] ++ List.replicate 16 0 ++
  [0, 0, 0, 0]

/-- C6 counterexample: On `cRaw6` the decoder emits the entry named
`A` (code point 65), taking the count from the *leading* two bytes
little-endian (`le [1,0] = 1`); the claimed rule — last two bytes of
the variable area big-endian (`be [65,0] = 0x4100`) with the name
before them — yields no filename at all on that area, so it does not
describe the decoder. -/
theorem claim_C6_counterexample :
    parse_iqr cRaw6 = some [⟨[65], [], 0, 7⟩] ∧
    le (slice [1, 0, 65, 0] 0 2) = 1 ∧
    be (slice [1, 0, 65, 0] 2 2) = 0x4100 ∧
    claimC6_tailName [1, 0, 65, 0] = none := by
  decide

/-! ## C4 — when the enumeration fallback fires -/

lemma hexCharsAux_irrel :
    ∀ (fuel fuel' n : Nat), n < fuel → n < fuel' →
      hexCharsAux fuel n = hexCharsAux fuel' n := by
  intro fuel
  induction fuel with
  | zero => intro fuel' n h h'; omega
  | succ f ih =>
    intro fuel' n h h'
    cases fuel' with
    | zero => omega
    | succ f' =>
      simp only [hexCharsAux]
      by_cases h16 : n < 16
      · rw [if_pos h16, if_pos h16]
      · rw [if_neg h16, if_neg h16, ih f' (n / 16) (by omega) (by omega)]

lemma hexChars_lt16 {n : Nat} (h : n < 16) : hexChars n = [hexChar n] := by
  rw [hexChars, hexCharsAux, if_pos h]

lemma hexChars_ge16 {n : Nat} (h : ¬n < 16) :
    hexChars n = hexChars (n / 16) ++ [hexChar (n % 16)] := by
  rw [hexChars, hexChars, hexCharsAux, if_neg h,
    hexCharsAux_irrel n (n / 16 + 1) (n / 16) (by omega) (by omega)]

lemma hexChars_digits2 {n : Nat} (h1 : 16 ≤ n) (h2 : n < 256) :
    hexChars n = [hexChar (n / 16), hexChar (n % 16)] := by
  rw [hexChars_ge16 (by omega), hexChars_lt16 (by omega)]
  rfl

lemma hexChars_digits3 {n : Nat} (h1 : 256 ≤ n) (h2 : n < 4096) :
    hexChars n =
      [hexChar (n / 256), hexChar (n / 16 % 16), hexChar (n % 16)] := by
  rw [hexChars_ge16 (by omega), hexChars_digits2 (by omega) (by omega),
    show n / 16 / 16 = n / 256 by omega]
  rfl

lemma hexChars_digits4 {n : Nat} (h1 : 4096 ≤ n) (h2 : n < 65536) :
    hexChars n =
      [hexChar (n / 4096), hexChar (n / 256 % 16), hexChar (n / 16 % 16),
       hexChar (n % 16)] := by
  rw [hexChars_ge16 (by omega), hexChars_digits3 (by omega) (by omega),
    show n / 16 / 256 = n / 4096 by omega,
    show n / 16 / 16 % 16 = n / 256 % 16 by omega]
  rfl

/-- Reading off a hex digit compared with the digits of `C061`. -/
lemma hexDigit_eq_C : ∀ d : Nat, d < 16 →
    (Char.toUpper (hexChar d) = 'C' ↔ d = 12) := by decide

lemma hexDigit_eq_0 : ∀ d : Nat, d < 16 →
    (Char.toUpper (hexChar d) = '0' ↔ d = 0) := by decide

lemma hexDigit_eq_6 : ∀ d : Nat, d < 16 →
    (Char.toUpper (hexChar d) = '6' ↔ d = 6) := by decide

lemma hexDigit_eq_1 : ∀ d : Nat, d < 16 →
    (Char.toUpper (hexChar d) = '1' ↔ d = 1) := by decide

/-- For a 16-bit status, the extracted end-code string uppercases to
`"0XC061"` exactly when the status is `0xC061`. -/
lemma fallbackCond_iff (s : Nat) (h : s < 65536) :
    fallbackCond s = true ↔ s = 0xC061 := by
  constructor
  · intro hc
    simp only [fallbackCond, extractEc, format04X, decide_eq_true_eq] at hc
    have t0 : Char.toUpper '0' = '0' := by decide
    have tx : Char.toUpper 'x' = 'X' := by decide
    simp only [List.map_cons, List.map_append, List.map_replicate, t0, tx,
      List.cons.injEq, true_and] at hc
    by_cases h4 : 4096 ≤ s
    · rw [hexChars_digits4 h4 h] at hc
      simp only [List.length_cons, List.length_nil, Nat.reduceAdd,
        Nat.sub_self, List.replicate_zero, List.nil_append, List.map_cons,
        List.map_nil, List.cons.injEq, and_true] at hc
      obtain ⟨e3, e2, e1, e0⟩ := hc
      have d3 := (hexDigit_eq_C (s / 4096) (by omega)).1 e3
      have d2 := (hexDigit_eq_0 (s / 256 % 16) (by omega)).1 e2
      have d1 := (hexDigit_eq_6 (s / 16 % 16) (by omega)).1 e1
      have d0 := (hexDigit_eq_1 (s % 16) (by omega)).1 e0
      omega
    · exfalso
      by_cases h3 : 256 ≤ s
      · rw [hexChars_digits3 h3 (by omega)] at hc
        simp at hc
      · by_cases h2 : 16 ≤ s
        · rw [hexChars_digits2 h2 (by omega)] at hc
          simp at hc
        · rw [hexChars_lt16 (by omega)] at hc
          simp at hc
  · intro hs
    subst hs
    decide

/-- The trace of one unfolding of the enumeration loop starts with the
requested start index. -/
lemma enumLoop_head (pages : Nat → Nat × List Nat) (f start : Nat)
    (acc : List FileEntry) :
    ((enumLoop pages (f + 1) start acc).2).head? = some start := by
  simp only [enumLoop]
  cases hp : parse_iqr (pages start).2 with
  | none => rfl
  | some fs =>
    show ((if (pages start).1 < 256 then
        (some (Except.ok (acc ++ fs)), [start])
      else
        ((enumLoop pages f (start + (pages start).1) (acc ++ fs)).1,
         start :: (enumLoop pages f (start + (pages start).1) (acc ++ fs)).2)).2).head?
      = some start
    by_cases hcnt : (pages start).1 < 256
    · rw [if_pos hcnt]
      rfl
    · rw [if_neg hcnt]
      rfl

/-- C4 (amended): The 1810h enumeration fallback runs exactly when
the raw end-code of the failed direct search is `0xC061` — a code the
classifier maps to `Generic`, not to `FileNotFound`: any other 16-bit
end-code surfaces an HTTP-500 error with no enumeration request, while
`0xC061` starts the enumeration at page index 1. -/
theorem claim_C4_amended (t : SearchTransport) (filename : List Nat)
    (fuel status : Nat)
    (hs : t.searchRes = .error status) (h16 : status < 65536)
    (hf : 0 < fuel) :
    (status ≠ 0xC061 →
      api_filesearch t filename fuel = (some (.error (.http 500)), [])) ∧
    (status = 0xC061 →
      check_mcprotocol_error status = some ⟨.generic, status⟩ ∧
      ((api_filesearch t filename fuel).2).head? = some 1) := by
  constructor
  · intro hne
    have hcond : fallbackCond status = false := by
      cases hb : fallbackCond status with
      | false => rfl
      | true => exact absurd ((fallbackCond_iff status h16).1 hb) hne
    simp [api_filesearch, hs, hcond]
  · intro he
    subst he
    refine ⟨by decide, ?_⟩
    obtain ⟨f, rfl⟩ : ∃ f, fuel = f + 1 := ⟨fuel - 1, by omega⟩
    simp only [api_filesearch, hs]
    rw [show fallbackCond 0xC061 = true from by decide]
    rw [if_pos rfl]
    rcases hx : enumLoop t.pages (f + 1) 1 [] with ⟨o, tr⟩
    have htr : tr.head? = some 1 := by
      have h := enumLoop_head t.pages f 1 []
      rw [hx] at h
      exact h
    cases o with
    | none => exact htr
    | some r =>
      cases r with
      | error e => exact htr
      | ok files =>
        show ((if files.filter
              (fun f => fullnameUpper f = filename.map upperCode) ≠ [] then
            (some (Except.ok (files.filter
              (fun f => fullnameUpper f = filename.map upperCode))), tr)
          else
            (some (Except.error (SearchErr.http 404)), tr)).2).head? = some 1
        by_cases hh : files.filter
            (fun f => fullnameUpper f = filename.map upperCode) ≠ []
        · rw [if_pos hh]
          exact htr
        · rw [if_neg hh]
          exact htr

/-- Witness for the amended C4: end-code `0xC051` surfaces HTTP 500
with no enumeration; end-code `0xC061` starts the enumeration at page
index 1. -/
theorem claim_C4_amended_witness :
    api_filesearch t051 mainPrg 10 = (some (.error (.http 500)), []) ∧
    ((api_filesearch t061 mainPrg 10).2).head? = some 1 :=
  ⟨(claim_C4_amended t051 mainPrg 10 0xC051 rfl (by omega) (by omega)).1
      (by omega),
   ((claim_C4_amended t061 mainPrg 10 0xC061 rfl (by omega) (by omega)).2
      rfl).2⟩

/-- C4 counterexample: Against `t051` the direct search fails with
`0xC051` — precisely the code the classifier maps to `FileNotFound` —
and the sought `MAIN.PRG` is present in the first listing page; yet the
resolver surfaces an HTTP-500 error without requesting a single
enumeration page, refuting the claim that the fallback runs on the
FileNotFound-classified error. -/
theorem claim_C4_counterexample :
    check_mcprotocol_error 0xC051 = some ⟨.fileNotFound, 0xC051⟩ ∧
    t051.searchRes = .error 0xC051 ∧
    parse_iqr ((t051.pages 1).2) = some [mainPrgEntry] ∧
    fullnameUpper mainPrgEntry = mainPrg.map upperCode ∧
    (t051.pages 1).1 < 256 ∧
    api_filesearch t051 mainPrg 10 = (some (.error (.http 500)), []) := by
  decide

/-! ## C8 — the enumeration fallback itself -/

/-- Characterization of the enumeration loop: with `n` pages reporting
a count of at least 256 followed by one final page reporting fewer, all
decoding successfully, the loop returns the concatenated entries and
requests exactly the page start indices `nthStartFrom pages start 0 …
n`. -/
lemma enumLoop_run (pages : Nat → Nat × List Nat) (Ps : Nat → List FileEntry) :
    ∀ (n fuel start : Nat) (acc : List FileEntry),
      (∀ i, i ≤ n →
        parse_iqr ((pages (nthStartFrom pages start i)).2) =
          some (Ps (nthStartFrom pages start i))) →
      (∀ i, i < n → 256 ≤ (pages (nthStartFrom pages start i)).1) →
      ((pages (nthStartFrom pages start n)).1 < 256) →
      n < fuel →
      enumLoop pages fuel start acc =
        (some (.ok (acc ++
          ((List.range (n + 1)).map
            (fun i => Ps (nthStartFrom pages start i))).flatten)),
         (List.range (n + 1)).map (nthStartFrom pages start)) := by
  intro n
  induction n with
  | zero =>
    intro fuel start acc hparse hfull hlast hfuel
    obtain ⟨f, rfl⟩ : ∃ f, fuel = f + 1 := ⟨fuel - 1, by omega⟩
    have hp0 : parse_iqr ((pages start).2) = some (Ps start) :=
      hparse 0 (by omega)
    have hc0 : (pages start).1 < 256 := hlast
    simp only [enumLoop, hp0, if_pos hc0]
    rw [show List.range 1 = [0] from rfl]
    simp [nthStartFrom]
  | succ n ih =>
    intro fuel start acc hparse hfull hlast hfuel
    obtain ⟨f, rfl⟩ : ∃ f, fuel = f + 1 := ⟨fuel - 1, by omega⟩
    have hp0 : parse_iqr ((pages start).2) = some (Ps start) :=
      hparse 0 (by omega)
    have hc0 : ¬(pages start).1 < 256 := by
      have := hfull 0 (by omega)
      simp only [nthStartFrom] at this
      omega
    simp only [enumLoop, hp0, if_neg hc0]
    rw [ih f (start + (pages start).1) (acc ++ Ps start)
      (fun i hi => hparse (i + 1) (by omega))
      (fun i hi => hfull (i + 1) (by omega))
      hlast
      (by omega)]
    have hfeq : ((fun i => Ps (nthStartFrom pages start i)) ∘ Nat.succ) =
        fun i => Ps (nthStartFrom pages (start + (pages start).1) i) := rfl
    have hgeq : (nthStartFrom pages start ∘ Nat.succ) =
        nthStartFrom pages (start + (pages start).1) := rfl
    simp only [List.range_succ_eq_map, List.map_cons, List.map_map, hfeq,
      hgeq, List.flatten_cons, nthStartFrom, List.append_assoc]
    rfl

/-- C8: Once the fallback runs (raw end-code `0xC061`), it requests
pages of 256 entries advancing the start index after each page, stops
exactly when a page reports fewer than 256 entries, filters the
concatenated decoded entries by case-insensitive `name.ext` match, and
returns all matches if there are any, or an HTTP-404 (file-not-found)
failure if none match. -/
theorem claim_C8 (t : SearchTransport) (filename : List Nat)
    (n fuel : Nat) (Ps : Nat → List FileEntry)
    (hs : t.searchRes = .error 0xC061)
    (hparse : ∀ i, i ≤ n →
      parse_iqr ((t.pages (nthStartFrom t.pages 1 i)).2) =
        some (Ps (nthStartFrom t.pages 1 i)))
    (hfull : ∀ i, i < n → 256 ≤ (t.pages (nthStartFrom t.pages 1 i)).1)
    (hlast : (t.pages (nthStartFrom t.pages 1 n)).1 < 256)
    (hfuel : n < fuel) :
    api_filesearch t filename fuel =
      (if ((List.range (n + 1)).map
            (fun i => Ps (nthStartFrom t.pages 1 i))).flatten.filter
            (fun f => fullnameUpper f = filename.map upperCode) ≠ [] then
        some (.ok (((List.range (n + 1)).map
          (fun i => Ps (nthStartFrom t.pages 1 i))).flatten.filter
            (fun f => fullnameUpper f = filename.map upperCode)))
      else some (.error (.http 404)),
       (List.range (n + 1)).map (nthStartFrom t.pages 1)) := by
  simp only [api_filesearch, hs]
  rw [show fallbackCond 0xC061 = true from by decide, if_pos rfl,
    enumLoop_run t.pages Ps n fuel 1 [] hparse hfull hlast hfuel]
  simp only [List.nil_append]
  by_cases hh : ((List.range (n + 1)).map
      (fun i => Ps (nthStartFrom t.pages 1 i))).flatten.filter
      (fun f => fullnameUpper f = filename.map upperCode) ≠ []
  · rw [if_pos hh]
    show (some (Except.ok _), _) = _
    rw [if_pos hh]
  · rw [if_neg hh]
    show (some (Except.error (SearchErr.http 404)), _) = _
    rw [if_neg hh]

/-- Witness for C8: one page of fewer than 256 entries containing
`MAIN.PRG` yields exactly that entry; sought name `"X"` instead yields
the 404 failure. -/
theorem claim_C8_witness :
    api_filesearch t061 mainPrg 10 = (some (.ok [mainPrgEntry]), [1]) ∧
    api_filesearch t061 [88] 10 = (some (.error (.http 404)), [1]) := by
  constructor
  · have h := claim_C8 t061 mainPrg 0 10 (fun _ => [mainPrgEntry]) rfl
      (by intro i hi; interval_cases i; decide)
      (by intro i hi; omega)
      (by decide)
      (by omega)
    rw [h]
    decide
  · have h := claim_C8 t061 [88] 0 10 (fun _ => [mainPrgEntry]) rfl
      (by intro i hi; interval_cases i; decide)
      (by intro i hi; omega)
      (by decide)
      (by omega)
    rw [h]
    decide

end Puma
